import Mathlib

/-!
Shallow embedding of the archive extraction and recursive upload engine of
`scf-unzip.py` (Tencent SCF COS unzipper), together with theorems settling
the specification claims about it.

The embedding models:
* `_is_safe_member`, `_sanitize_member` (via `posixpath.normpath`),
  `posixpath.join`, and `_zipinfo_is_dir` as pure functions translated
  line by line from the source;
* `_extract_and_upload` as `extract`: archives are modelled as an inductive
  tree (`Bytes.zip` for bytes that open as an archive, `Bytes.raw` for
  opaque bytes on which opening raises), the object-store `put_object`
  call as a boolean oracle on destination keys, and the performed side
  effects (archive-open attempts, uploads) as an explicit event trace.
  A raised exception is modelled as `none` in the result component; the
  trace records the operations performed before the raise, since in the
  source those side effects are not rolled back.
-/

namespace ScfUnzip

/-!
String primitives.  Lean core string functions (`String.splitOn`,
`String.startsWith`, ...) recurse on byte positions by well-founded
recursion, which the kernel cannot evaluate; the engine's claims include
concrete scenarios settled by `decide`, so the Python string operators are
embedded here structurally over the character list of a `String`, with the
same semantics as their Python counterparts.
-/

/-- Characters of Python `s.split(sep)` for a one-character separator:
splitting the empty string yields one empty field. -/
def splitOnChar (c : Char) : List Char → List (List Char)
  | [] => [[]]
  | x :: xs =>
    let r := splitOnChar c xs
    if x = c then [] :: r
    else
      match r with
      | h :: t => (x :: h) :: t
      | [] => [[x]]

/-- Python `s.split(c)` (one-character separator). -/
def pySplit (s : String) (c : Char) : List String :=
  (splitOnChar c s.data).map String.mk

/-- Python `s.startswith(pre)`. -/
def pyStartsWith (s pre : String) : Bool :=
  pre.data.isPrefixOf s.data

/-- Python `s.endswith(suf)`. -/
def pyEndsWith (s suf : String) : Bool :=
  suf.data.isSuffixOf s.data

/-- Python `s.lower()` (ASCII is all that reaches it here). -/
def pyLower (s : String) : String :=
  String.mk (s.data.map Char.toLower)

/-- Python `s[n:]` for `n ≥ 0`. -/
def pyDrop (s : String) (n : Nat) : String :=
  String.mk (s.data.drop n)

/-- Python `s[:-n]` for `n > 0`: keep all but the last `n` characters. -/
def pyDropRight (s : String) (n : Nat) : String :=
  String.mk (s.data.take (s.data.length - n))

/-- Python `sep.join(parts)`. -/
def pyJoinSep (sep : String) (parts : List String) : String :=
  String.mk (List.intercalate sep.data (parts.map String.data))

/-- Embedding of `_is_safe_member`: reject absolute paths and any
path with a `..` segment. -/
def is_safe_member (nm : String) : Bool :=
  if pyStartsWith nm "/" then false
  else (pySplit nm '/').all (fun p => p != "..")

/-- Embedding of Python `posixpath.normpath` (CPython, pure-POSIX variant),
which `_sanitize_member` calls. -/
def normpath (pth : String) : String :=
  if pth = "" then "."
  else
    let initialSlashes : Nat :=
      if pyStartsWith pth "/" then
        if pyStartsWith pth "//" && !(pyStartsWith pth "///") then 2 else 1
      else 0
    let comps := pySplit pth '/'
    let newComps := comps.foldl (fun acc comp =>
      if comp = "" || comp = "." then acc
      else if comp != ".." || (decide (initialSlashes = 0) && acc.isEmpty)
              || (!acc.isEmpty && acc.getLast? == some "..") then
        acc ++ [comp]
      else if !acc.isEmpty then acc.dropLast
      else acc) []
    let joined := pyJoinSep "/" newComps
    let res := String.mk (List.replicate initialSlashes '/') ++ joined
    if res = "" then "." else res

/-- Embedding of `_sanitize_member`: normalize to a POSIX path and strip a
leading `./`. -/
def sanitize_member (nm : String) : String :=
  let p := normpath nm
  if pyStartsWith p "./" then pyDrop p 2 else p

/-- Embedding of Python `posixpath.join` for two arguments. -/
def pjoin (a b : String) : String :=
  if pyStartsWith b "/" then b
  else if a = "" || pyEndsWith a "/" then a ++ b
  else a ++ "/" ++ b

/-- Embedding of `_zipinfo_is_dir`.  The two probed signals,
`member.is_dir()` and `member.external_attr`, are modelled as `Option`
values: `none` means probing that signal raised an exception. -/
def zipinfo_is_dir (dirp : Option Bool) (attr : Option Nat) : Bool :=
  match dirp with
  | some true => true
  | _ =>
    match attr with
    | some a => ((a >>> 16) &&& 0o40000) != 0
    | none => false

/-- The result dictionary returned by `_extract_and_upload`
(`files_uploaded`, `nested_zips_processed`, `max_depth_reached`). -/
structure LevelResult where
  files_uploaded : Nat
  nested_zips_processed : Nat
  max_depth_reached : Bool
deriving Repr, DecidableEq

mutual
/-- A byte payload.  `zip es` is a payload that `zipfile.ZipFile` opens as an
archive with member list `es`; `raw id` is an opaque payload (a plain file,
or corrupt data on which opening an archive raises). -/
inductive Bytes : Type where
  | raw (id : Nat) : Bytes
  | zip (es : List Ent) : Bytes

/-- One archive member: its stored `filename`, the two directory signals
probed by `_zipinfo_is_dir` (`none` = probing raises), and its payload. -/
inductive Ent : Type where
  | mk (nm : String) (dirp : Option Bool) (attr : Option Nat) (data : Bytes) : Ent
end

def Ent.nm : Ent → String
  | .mk n _ _ _ => n

def Ent.dirp : Ent → Option Bool
  | .mk _ d _ _ => d

def Ent.attr : Ent → Option Nat
  | .mk _ _ a _ => a

def Ent.data : Ent → Bytes
  | .mk _ _ _ d => d

/-- An observable side effect performed by the engine: an attempt to open an
archive (identified by the destination it extracts into), or an
upload of a destination key (`ok` records whether `put_object` succeeded). -/
inductive Ev : Type where
  | openA (dst : String) : Ev
  | up (key : String) (ok : Bool) : Ev
deriving Repr, DecidableEq

/-- What the member loop of `_extract_and_upload` does with one member:
skip it (`none`), submit an upload task for a destination key (`some (.inl key)`),
or record a nested-archive job (`some (.inr (payload, nested destination))`).
The checks mirror the source order: safety, directory classification,
trailing-slash sanitized name, nested-zip extension. -/
def entryAction (dst : String) (e : Ent) : Option (String ⊕ Bytes × String) :=
  if !is_safe_member e.nm then none
  else if zipinfo_is_dir e.dirp e.attr then none
  else
    let clean_name := sanitize_member e.nm
    if pyEndsWith clean_name "/" then none
    else if pyEndsWith (pyLower clean_name) ".zip" then
      some (.inr (e.data, pjoin dst (pyDropRight clean_name 4)))
    else
      some (.inl (pjoin dst clean_name))

/-- The upload tasks submitted at one level, in member order
(`tasks` in the source; `files_uploaded` counts them). -/
def upsOf (dst : String) (es : List Ent) : List String :=
  es.filterMap (fun e =>
    match entryAction dst e with
    | some (.inl k) => some k
    | _ => none)

/-- The nested-archive jobs recorded at one level, in member order
(`nested_zips` in the source). -/
def nestedOf (dst : String) (es : List Ent) : List (Bytes × String) :=
  es.filterMap (fun e =>
    match entryAction dst e with
    | some (.inr j) => some j
    | _ => none)

/-- The nested-job loop of `_extract_and_upload`: fold the recursive results
into the running totals `(files_uploaded, nested_zips_processed, trace)`.
A child that raises (`none`) is caught and contributes nothing to the
counts, but the side effects it performed before raising remain in the
trace. -/
def procNested (rc : Bytes → String → Option LevelResult × List Ev) :
    List (Bytes × String) → Nat × Nat × List Ev → Nat × Nat × List Ev
  | [], st => st
  | (d, p) :: rest, (fu, nzp, tr) =>
    match rc d p with
    | (some cr, tr2) =>
      procNested rc rest
        (fu + cr.files_uploaded, nzp + 1 + cr.nested_zips_processed, tr ++ tr2)
    | (none, tr2) => procNested rc rest (fu, nzp, tr ++ tr2)

/-- Fuel-indexed core of `_extract_and_upload`, with fuel `max(max_depth, 0)`.
Fuel `0` is the `max_depth <= 0` early return.  Otherwise: opening `raw`
bytes raises `BadZipFile` (result `none`); opening a `zip` classifies every
member, performs every submitted upload (the thread pool barrier runs all
tasks to completion), raises if any upload failed, and otherwise runs the
nested-job loop with decremented fuel and returns the totals, with
`max_depth_reached := max_depth <= 1 and nested_zips != []`. -/
def extractN (put : String → Bool) : Bytes → String → Nat → Option LevelResult × List Ev
  | _, _, 0 => (some ⟨0, 0, true⟩, [])
  | .raw _, dst, _ + 1 => (none, [Ev.openA dst])
  | .zip es, dst, n + 1 =>
    let ups := upsOf dst es
    let nested := nestedOf dst es
    let tr0 := Ev.openA dst :: ups.map (fun k => Ev.up k (put k))
    if ups.any (fun k => !(put k)) then (none, tr0)
    else
      let st := procNested (fun d p => extractN put d p n) nested (ups.length, 0, tr0)
      (some ⟨st.1, st.2.1, decide (n + 1 ≤ 1) && decide (nested.length > 0)⟩, st.2.2)

/-- Embedding of `_extract_and_upload`: `max_depth` is an integer as in the
source, and negative or zero budgets hit the early return (fuel `0`). -/
def extract (put : String → Bool) (b : Bytes) (dst : String) (max_depth : Int) :
    Option LevelResult × List Ev :=
  extractN put b dst max_depth.toNat

/-- The nested-archive tower of the spec's depth scenario: `deepArc (k+1)` is
an archive holding one plain file `f.txt` and one nested archive `n.zip`
whose payload is `deepArc k`; `deepArc 0` is opaque bytes.  `deepArc 11`
is an archive nested 11 levels deep, each level containing exactly one
nested archive plus one plain file. -/
def deepArc : Nat → Bytes
  | 0 => .raw 0
  | k + 1 => .zip [.mk "f.txt" (some false) (some 0) (.raw k),
                   .mk "n.zip" (some false) (some 0) (deepArc k)]

/-! Helper lemmas shared by the claim theorems. -/

/-- A non-positive budget hits the `max_depth <= 0` early return: the stub
result, and an empty trace (no archive open, no upload, no staging). -/
theorem extract_nonpos_eq (put : String → Bool) (b : Bytes) (dst : String)
    (md : Int) (h : md ≤ 0) : extract put b dst md = (some ⟨0, 0, true⟩, []) := by
  have h0 : md.toNat = 0 := by omega
  unfold extract
  rw [h0]
  cases b <;> rfl

/-- Characterization of `extract` directly in terms of the integer budget of
the source: the fuel-indexed `extractN` implements exactly the
`max_depth <= 0` check, the `max_depth - 1` recursion, and the
`max_depth <= 1 and len(nested_zips) > 0` flag of `_extract_and_upload`. -/
theorem extract_eq_source (put : String → Bool) (b : Bytes) (dst : String) (md : Int) :
    extract put b dst md =
      if md ≤ 0 then (some ⟨0, 0, true⟩, [])
      else
        match b with
        | .raw _ => (none, [Ev.openA dst])
        | .zip es =>
          let ups := upsOf dst es
          let nested := nestedOf dst es
          let tr0 := Ev.openA dst :: ups.map (fun k => Ev.up k (put k))
          if ups.any (fun k => !(put k)) then (none, tr0)
          else
            let st := procNested (fun d p => extract put d p (md - 1)) nested
              (ups.length, 0, tr0)
            (some ⟨st.1, st.2.1, decide (md ≤ 1) && decide (nested.length > 0)⟩,
             st.2.2) := by
  by_cases h : md ≤ 0
  · rw [if_pos h]
    exact extract_nonpos_eq put b dst md h
  · rw [if_neg h]
    obtain ⟨n, hn⟩ : ∃ n, md.toNat = n + 1 := ⟨md.toNat - 1, by omega⟩
    have hmn : (md - 1).toNat = n := by omega
    have hd : decide (n + 1 ≤ 1) = decide (md ≤ 1) :=
      decide_eq_decide.2 (by omega)
    cases b with
    | raw i =>
      unfold extract
      rw [hn]
      rfl
    | zip es =>
      unfold extract
      rw [hn]
      simp only [extractN, hmn, hd]

/-- The `nested_zips_processed` accumulator of the nested-job loop: starting
from `nzp`, it adds `1 + child.nested_zips_processed` for exactly the jobs
whose recursive call returns a result, and nothing for jobs that raise. -/
theorem procNested_nzp_eq (rc : Bytes → String → Option LevelResult × List Ev)
    (jobs : List (Bytes × String)) (fu nzp : Nat) (tr : List Ev) :
    (procNested rc jobs (fu, nzp, tr)).2.1 =
      nzp + (jobs.filterMap (fun j =>
        ((rc j.1 j.2).1).map (fun c => 1 + c.nested_zips_processed))).sum := by
  induction jobs generalizing fu nzp tr with
  | nil => simp [procNested]
  | cons j rest ih =>
    obtain ⟨d, p⟩ := j
    rcases hj : rc d p with ⟨r, tr2⟩
    cases r with
    | none => simp [procNested, hj, ih]
    | some cr =>
      simp [procNested, hj, ih]
      omega

/-! The claim theorems. -/

/-- Claim C1 counterexample: on the archive nested 11 levels deep with
budget 10 and an always-succeeding upload oracle, the plain files at
levels 1–10 are all uploaded and the level-11 archive is never opened
(no 11th open event), but the top-level `max_depth_reached` flag is
`false`, not `true`: `_extract_and_upload` computes the flag from the
level's own budget and nested list only and discards each child's flag,
so the `true` flag produced at level 10 is lost.  The second conjunct is
the direct negation of the outcome the claim asserts. -/
theorem C1_counterexample :
    extract (fun _ => true) (deepArc 11) "out" 10 =
      (some ⟨10, 10, false⟩,
       [Ev.openA "out", Ev.up "out/f.txt" true,
        Ev.openA "out/n", Ev.up "out/n/f.txt" true,
        Ev.openA "out/n/n", Ev.up "out/n/n/f.txt" true,
        Ev.openA "out/n/n/n", Ev.up "out/n/n/n/f.txt" true,
        Ev.openA "out/n/n/n/n", Ev.up "out/n/n/n/n/f.txt" true,
        Ev.openA "out/n/n/n/n/n", Ev.up "out/n/n/n/n/n/f.txt" true,
        Ev.openA "out/n/n/n/n/n/n", Ev.up "out/n/n/n/n/n/n/f.txt" true,
        Ev.openA "out/n/n/n/n/n/n/n", Ev.up "out/n/n/n/n/n/n/n/f.txt" true,
        Ev.openA "out/n/n/n/n/n/n/n/n", Ev.up "out/n/n/n/n/n/n/n/n/f.txt" true,
        Ev.openA "out/n/n/n/n/n/n/n/n/n",
        Ev.up "out/n/n/n/n/n/n/n/n/n/f.txt" true]) ∧
    (extract (fun _ => true) (deepArc 11) "out" 10).1 ≠ some ⟨10, 10, true⟩ := by
  constructor
  · decide
  · decide

/-- Claim C1 as amended: the depth-limit flag of a level that returns a
result is computed from that level alone — it is
`budget ≤ 1 && nested jobs nonempty` — and children's flags are not OR-ed
into the caller; consequently in the 11-level scenario with budget 10 the
plain files of levels 1–10 are uploaded, the level-11 archive is never
opened, and the top-level flag is `false` (only level 10's own result
carries `true`). -/
theorem C1_flag_is_level_local :
    (∀ (put : String → Bool) (es : List Ent) (dst : String) (md : Int)
        (r : LevelResult), 0 < md →
      (extract put (.zip es) dst md).1 = some r →
      r.max_depth_reached =
        (decide (md ≤ 1) && decide ((nestedOf dst es).length > 0))) ∧
    (extract (fun _ => true) (deepArc 11) "out" 10).1 = some ⟨10, 10, false⟩ := by
  constructor
  · intro put es dst md r h1 h2
    obtain ⟨n, hn⟩ : ∃ n, md.toNat = n + 1 := ⟨md.toNat - 1, by omega⟩
    have hd : decide (n + 1 ≤ 1) = decide (md ≤ 1) :=
      decide_eq_decide.2 (by omega)
    unfold extract at h2
    rw [hn] at h2
    simp only [extractN] at h2
    split at h2
    · simp at h2
    · simp only [Option.some.injEq] at h2
      rw [← h2, hd]
  · decide

/-- Witness for the amended C1 flag formula, at an archive holding a single
nested archive and budget 1: the flag of the level's own result is true. -/
theorem C1_flag_is_level_local_witness :
    (0 : Int) < 1 ∧
    (extract (fun _ => true)
        (.zip [.mk "a.zip" (some false) (some 0) (.zip [])]) "out" 1).1 =
      some ⟨0, 1, true⟩ ∧
    (⟨0, 1, true⟩ : LevelResult).max_depth_reached =
      (decide ((1 : Int) ≤ 1) &&
       decide ((nestedOf "out"
         [.mk "a.zip" (some false) (some 0) (.zip [])]).length > 0)) :=
  ⟨by decide, by decide,
   C1_flag_is_level_local.1 (fun _ => true)
     [.mk "a.zip" (some false) (some 0) (.zip [])] "out" 1 ⟨0, 1, true⟩
     (by decide) (by decide)⟩

/-- Claim C2 counterexample: the empty raw name does not normalize to an
empty path — `_sanitize_member("")` is `"."` — and an entry with the empty
name is not skipped: it passes the safety, directory and trailing-slash
checks and is uploaded under `join(dst, ".")`, counting as an uploaded
file. -/
theorem C2_counterexample :
    sanitize_member "" = "." ∧
    extract (fun _ => true) (.zip [.mk "" (some false) (some 0) (.raw 0)])
        "out" 3 =
      (some ⟨1, 0, false⟩, [Ev.openA "out", Ev.up "out/." true]) := by
  constructor
  · rfl
  · decide

/-- Claim C2 as amended: the empty raw name normalizes to `"."` and, when
the classifier does not call the entry a directory, the member loop
submits it for upload under `join(dst, ".")` rather than skipping it; a
nonempty name consisting only of `/` separators is rejected by the safety
check (it begins with a separator) and yields neither an upload task nor
a nested-archive job.  Neither case raises an error. -/
theorem C2_empty_and_separator_names :
    sanitize_member "" = "." ∧
    (∀ (dst : String) (dirp : Option Bool) (attr : Option Nat) (d : Bytes),
      zipinfo_is_dir dirp attr = false →
      entryAction dst (.mk "" dirp attr d) = some (.inl (pjoin dst "."))) ∧
    (∀ (nm dst : String) (dirp : Option Bool) (attr : Option Nat) (d : Bytes),
      nm ≠ "" → nm.data.all (fun c => c = '/') →
      is_safe_member nm = false ∧ entryAction dst (.mk nm dirp attr d) = none) := by
  refine ⟨rfl, ?_, ?_⟩
  · intro dst dirp attr d hdir
    simp [entryAction, Ent.nm, Ent.dirp, Ent.attr, hdir, is_safe_member,
      pyStartsWith, pySplit, splitOnChar, sanitize_member, normpath,
      pyEndsWith, pyLower, List.isPrefixOf, List.isSuffixOf]
  · intro nm dst dirp attr d hne hsl
    obtain ⟨l⟩ := nm
    cases l with
    | nil => exact absurd rfl hne
    | cons c cs =>
      have hc : c = '/' := by
        have := List.all_eq_true.1 hsl c (by simp)
        simpa using this
      subst hc
      have hsafe : is_safe_member ⟨'/' :: cs⟩ = false := by
        simp [is_safe_member, pyStartsWith, List.isPrefixOf]
      exact ⟨hsafe, by simp [entryAction, Ent.nm, hsafe]⟩

/-- Witness for the amended C2: the empty name is uploaded as `out/.`; the
all-separator name `//` is rejected and yields nothing. -/
theorem C2_empty_and_separator_names_witness :
    zipinfo_is_dir (some false) (some 0) = false ∧
    entryAction "out" (.mk "" (some false) (some 0) (.raw 0)) =
      some (.inl (pjoin "out" ".")) ∧
    "//" ≠ "" ∧
    ("//".data.all (fun c => c = '/')) = true ∧
    is_safe_member "//" = false ∧
    entryAction "out" (.mk "//" (some false) (some 0) (.raw 0)) = none := by
  have h2 := C2_empty_and_separator_names.2.1 "out" (some false) (some 0)
    (.raw 0) (by decide)
  have h3 := C2_empty_and_separator_names.2.2 "//" "out" (some false) (some 0)
    (.raw 0) (by decide) (by decide)
  exact ⟨by decide, h2, by decide, by decide, h3.1, h3.2⟩

/-- Claim C3: for every archive, destination, and budget value `≤ 0`, the
extraction call returns immediately with `files_uploaded = 0`,
`nested_zips_processed = 0`, and the depth-limit flag true, and the event
trace is empty: no archive open, no upload, no nested staging is
performed, for any upload oracle. -/
theorem C3_nonpos_budget_stub (put : String → Bool) (b : Bytes) (dst : String)
    (md : Int) (h : md ≤ 0) :
    extract put b dst md = (some ⟨0, 0, true⟩, []) :=
  extract_nonpos_eq put b dst md h

/-- Witness for C3 at budget `-3` on a nonempty archive. -/
theorem C3_nonpos_budget_stub_witness :
    (-3 : Int) ≤ 0 ∧
    extract (fun _ => true) (.zip [.mk "a.txt" (some false) (some 0) (.raw 0)])
        "out" (-3) = (some ⟨0, 0, true⟩, []) :=
  ⟨by decide,
   C3_nonpos_budget_stub (fun _ => true)
     (.zip [.mk "a.txt" (some false) (some 0) (.raw 0)]) "out" (-3) (by decide)⟩

/-- Claim C4: a raw name beginning with `/`, or containing a `/`-delimited
segment equal to `..`, is rejected by `_is_safe_member`, and an entry so
named is skipped by the member loop: it contributes no upload task and no
nested-archive job, wherever it occurs in the member list. -/
theorem C4_unsafe_name_skipped (nm dst : String) (dirp : Option Bool)
    (attr : Option Nat) (d : Bytes)
    (h : pyStartsWith nm "/" = true ∨ ".." ∈ pySplit nm '/') :
    is_safe_member nm = false ∧
    entryAction dst (.mk nm dirp attr d) = none ∧
    ∀ l r : List Ent,
      upsOf dst (l ++ .mk nm dirp attr d :: r) = upsOf dst (l ++ r) ∧
      nestedOf dst (l ++ .mk nm dirp attr d :: r) = nestedOf dst (l ++ r) := by
  have hsafe : is_safe_member nm = false := by
    rcases h with h | h
    · simp [is_safe_member, h]
    · unfold is_safe_member
      split
      · rfl
      · exact List.all_eq_false.2 ⟨"..", h, by decide⟩
  have hact : entryAction dst (.mk nm dirp attr d) = none := by
    simp [entryAction, Ent.nm, hsafe]
  refine ⟨hsafe, hact, fun l r => ?_⟩
  constructor <;>
    simp [upsOf, nestedOf, List.filterMap_append, List.filterMap_cons, hact]

/-- Witness for C4 on the traversal name `a/../b`. -/
theorem C4_unsafe_name_skipped_witness :
    (pyStartsWith "a/../b" "/" = true ∨ ".." ∈ pySplit "a/../b" '/') ∧
    is_safe_member "a/../b" = false ∧
    entryAction "out" (.mk "a/../b" (some false) (some 0) (.raw 0)) = none ∧
    upsOf "out" [.mk "a/../b" (some false) (some 0) (.raw 0)] = upsOf "out" [] ∧
    nestedOf "out" [.mk "a/../b" (some false) (some 0) (.raw 0)] = nestedOf "out" [] := by
  have h : pyStartsWith "a/../b" "/" = true ∨ ".." ∈ pySplit "a/../b" '/' :=
    Or.inr (by decide)
  have main := C4_unsafe_name_skipped "a/../b" "out" (some false) (some 0) (.raw 0) h
  exact ⟨h, main.1, main.2.1, (main.2.2 [] []).1, (main.2.2 [] []).2⟩

/-- Claim C5: an entry whose sanitized name case-insensitively ends in
`.zip` never yields an upload task for its own bytes under its own name:
the member loop either skips it or records a nested-archive job pairing
its payload with the destination `join(dst, sanitized name minus the
4-character extension)`. -/
theorem C5_nested_zip_not_uploaded (dst : String) (e : Ent)
    (h : pyEndsWith (pyLower (sanitize_member e.nm)) ".zip" = true) :
    entryAction dst e = none ∨
    entryAction dst e =
      some (.inr (e.data, pjoin dst (pyDropRight (sanitize_member e.nm) 4))) := by
  unfold entryAction
  split
  · exact Or.inl rfl
  · split
    · exact Or.inl rfl
    · dsimp only
      split
      · exact Or.inl rfl
      · simp [h]

/-- Witness for C5 on the entry `Bundle.ZIP` (mixed-case extension). -/
theorem C5_nested_zip_not_uploaded_witness :
    pyEndsWith (pyLower (sanitize_member (Ent.nm (.mk "Bundle.ZIP" (some false)
        (some 0) (.raw 7))))) ".zip" = true ∧
    (entryAction "out" (.mk "Bundle.ZIP" (some false) (some 0) (.raw 7)) = none ∨
     entryAction "out" (.mk "Bundle.ZIP" (some false) (some 0) (.raw 7)) =
       some (.inr ((Ent.data (.mk "Bundle.ZIP" (some false) (some 0) (.raw 7))),
         pjoin "out" (pyDropRight (sanitize_member (Ent.nm (.mk "Bundle.ZIP"
           (some false) (some 0) (.raw 7)))) 4)))) :=
  ⟨by decide,
   C5_nested_zip_not_uploaded "out" (.mk "Bundle.ZIP" (some false) (some 0) (.raw 7))
     (by decide)⟩

/-- Claim C6: when the primary directory indicator is false or raises, the
classifier returns true exactly when the `0o40000` mode bit is set in the
high 16 bits of the attribute field, and returns false (rather than
propagating anything) when the attribute probe raises too. -/
theorem C6_classifier_fallback (dirp : Option Bool) (a : Nat)
    (h : dirp = some false ∨ dirp = none) :
    zipinfo_is_dir dirp (some a) = (((a >>> 16) &&& 0o40000) != 0) ∧
    zipinfo_is_dir dirp none = false := by
  rcases h with h | h <;> subst h <;> exact ⟨rfl, rfl⟩

/-- Witness for C6: primary indicator false, attribute field with the
directory bit set (`0o40755` Unix mode in the high 16 bits). -/
theorem C6_classifier_fallback_witness :
    ((some false : Option Bool) = some false ∨ (some false : Option Bool) = none) ∧
    (zipinfo_is_dir (some false) (some (0o40755 <<< 16)) =
       ((((0o40755 <<< 16) >>> 16) &&& 0o40000) != 0) ∧
     zipinfo_is_dir (some false) none = false) ∧
    zipinfo_is_dir (some false) (some (0o40755 <<< 16)) = true :=
  ⟨Or.inl rfl, C6_classifier_fallback (some false) (0o40755 <<< 16) (Or.inl rfl),
   by decide⟩

/-- Claim C7: if any upload submitted at a level fails, the level's call
raises (`none`: no `LevelResult`), the trace keeps the level's open and
every upload attempt — completed sibling uploads are not rolled back —
and nothing follows them: no nested-archive job recorded at that level is
processed. -/
theorem C7_upload_failure_fails_level (put : String → Bool) (es : List Ent)
    (dst : String) (md : Int) (h1 : 0 < md)
    (h2 : (upsOf dst es).any (fun k => !(put k)) = true) :
    extract put (.zip es) dst md =
      (none, Ev.openA dst :: (upsOf dst es).map (fun k => Ev.up k (put k))) := by
  obtain ⟨n, hn⟩ : ∃ n, md.toNat = n + 1 := ⟨md.toNat - 1, by omega⟩
  unfold extract
  rw [hn]
  simp only [extractN]
  simp [h2]

/-- Witness for C7: the upload of `out/bad.txt` fails while `out/report.txt`
succeeds; the level fails with both upload attempts on the trace and the
sibling nested archive `bundle.zip` unprocessed (no `out/bundle` open). -/
theorem C7_upload_failure_fails_level_witness :
    (0 : Int) < 5 ∧
    ((upsOf "out" [.mk "report.txt" (some false) (some 0) (.raw 0),
                   .mk "bad.txt" (some false) (some 0) (.raw 1),
                   .mk "bundle.zip" (some false) (some 0) (.zip [])]).any
      (fun k => !((fun q => q != "out/bad.txt") k)) = true) ∧
    extract (fun q => q != "out/bad.txt")
        (.zip [.mk "report.txt" (some false) (some 0) (.raw 0),
               .mk "bad.txt" (some false) (some 0) (.raw 1),
               .mk "bundle.zip" (some false) (some 0) (.zip [])]) "out" 5 =
      (none, Ev.openA "out" ::
        (upsOf "out" [.mk "report.txt" (some false) (some 0) (.raw 0),
                      .mk "bad.txt" (some false) (some 0) (.raw 1),
                      .mk "bundle.zip" (some false) (some 0) (.zip [])]).map
          (fun k => Ev.up k ((fun q => q != "out/bad.txt") k))) :=
  ⟨by decide, by decide,
   C7_upload_failure_fails_level (fun q => q != "out/bad.txt")
     [.mk "report.txt" (some false) (some 0) (.raw 0),
      .mk "bad.txt" (some false) (some 0) (.raw 1),
      .mk "bundle.zip" (some false) (some 0) (.zip [])] "out" 5
     (by decide) (by decide)⟩

/-- Claim C8: a nested job whose processing raises is caught at the
nested-job loop: the loop continues with the remaining jobs, the failing
job adds nothing to either count (only its pre-failure side effects stay
on the trace), and the level still returns a result.  In the spec's
scenario — `report.txt` plus a `bundle.zip` whose staged bytes are
corrupt — `report.txt` stays uploaded and the level reports
`files_uploaded = 1`, `nested_zips_processed = 0`. -/
theorem C8_nested_failure_tolerated :
    (∀ (rc : Bytes → String → Option LevelResult × List Ev) (d : Bytes)
        (p : String) (rest : List (Bytes × String)) (fu nzp : Nat)
        (tr tr2 : List Ev),
      rc d p = (none, tr2) →
      procNested rc ((d, p) :: rest) (fu, nzp, tr) =
        procNested rc rest (fu, nzp, tr ++ tr2)) ∧
    extract (fun _ => true)
        (.zip [.mk "report.txt" (some false) (some 0) (.raw 0),
               .mk "bundle.zip" (some false) (some 0) (.raw 1)]) "out" 5 =
      (some ⟨1, 0, false⟩,
       [Ev.openA "out", Ev.up "out/report.txt" true, Ev.openA "out/bundle"]) := by
  constructor
  · intro rc d p rest fu nzp tr tr2 hj
    simp [procNested, hj]
  · decide

/-- Witness for C8's loop rule with a child that raises after producing
trace `[Ev.openA "x"]`. -/
theorem C8_nested_failure_tolerated_witness :
    ((fun (_ : Bytes) (_ : String) =>
        ((none : Option LevelResult), [Ev.openA "x"])) (.raw 0) "p" =
      (none, [Ev.openA "x"])) ∧
    procNested (fun _ _ => (none, [Ev.openA "x"])) [(.raw 0, "p")] (2, 3, []) =
      procNested (fun _ _ => (none, [Ev.openA "x"])) [] (2, 3, [] ++ [Ev.openA "x"]) :=
  ⟨rfl,
   C8_nested_failure_tolerated.1 (fun _ _ => (none, [Ev.openA "x"])) (.raw 0) "p"
     [] 2 3 [] [Ev.openA "x"] rfl⟩

/-- Claim C9: a level that returns a result reports
`nested_zips_processed` equal to the sum, over the nested jobs whose
recursive call (at budget − 1) returns a result, of
`1 + child.nested_zips_processed` — the `1` added by the caller. -/
theorem C9_count_summed_by_caller (put : String → Bool) (es : List Ent)
    (dst : String) (md : Int) (r : LevelResult) (h1 : 0 < md)
    (h2 : (extract put (.zip es) dst md).1 = some r) :
    r.nested_zips_processed =
      ((nestedOf dst es).filterMap (fun j =>
        ((extract put j.1 j.2 (md - 1)).1).map
          (fun c => 1 + c.nested_zips_processed))).sum := by
  obtain ⟨n, hn⟩ : ∃ n, md.toNat = n + 1 := ⟨md.toNat - 1, by omega⟩
  have hrec : ∀ (d : Bytes) (p : String),
      extract put d p (md - 1) = extractN put d p n := by
    intro d p
    unfold extract
    congr 1
    omega
  unfold extract at h2
  rw [hn] at h2
  simp only [extractN] at h2
  split at h2
  · simp at h2
  · simp only [Option.some.injEq] at h2
    rw [← h2]
    simp only [hrec]
    rw [procNested_nzp_eq]
    simp

/-- Witness for C9: the spec's tree — a root with two nested archives, one
containing one further nested archive — reports
`nested_zips_processed = 3`. -/
theorem C9_count_summed_by_caller_witness :
    (0 : Int) < 5 ∧
    (extract (fun _ => true)
        (.zip [.mk "a.zip" (some false) (some 0)
                 (.zip [.mk "c.zip" (some false) (some 0) (.zip [])]),
               .mk "b.zip" (some false) (some 0) (.zip [])]) "out" 5).1 =
      some ⟨0, 3, false⟩ ∧
    (⟨0, 3, false⟩ : LevelResult).nested_zips_processed =
      ((nestedOf "out"
          [.mk "a.zip" (some false) (some 0)
             (.zip [.mk "c.zip" (some false) (some 0) (.zip [])]),
           .mk "b.zip" (some false) (some 0) (.zip [])]).filterMap (fun j =>
        ((extract (fun _ => true) j.1 j.2 (5 - 1)).1).map
          (fun c => 1 + c.nested_zips_processed))).sum :=
  ⟨by decide, by decide,
   C9_count_summed_by_caller (fun _ => true)
     [.mk "a.zip" (some false) (some 0)
        (.zip [.mk "c.zip" (some false) (some 0) (.zip [])]),
      .mk "b.zip" (some false) (some 0) (.zip [])] "out" 5 ⟨0, 3, false⟩
     (by decide) (by decide)⟩

/-- Claim C10: a nested archive whose recursive call is entered with budget
0 returns the depth-limit stub without opening anything, yet its parent
still adds 1 for it in the nested-job loop; an archive holding exactly
one nested archive, processed with budget 1, ends with
`nested_zips_processed = 1`, `max_depth_reached = true`, and no open
event for the nested archive. -/
theorem C10_budget_zero_child_counted :
    (∀ (put : String → Bool) (d : Bytes) (p : String),
      extract put d p 0 = (some ⟨0, 0, true⟩, [])) ∧
    (∀ (put : String → Bool) (d : Bytes) (p : String)
        (rest : List (Bytes × String)) (fu nzp : Nat) (tr : List Ev),
      procNested (fun dd pp => extract put dd pp 0) ((d, p) :: rest) (fu, nzp, tr) =
        procNested (fun dd pp => extract put dd pp 0) rest (fu, nzp + 1, tr)) ∧
    extract (fun _ => true)
        (.zip [.mk "a.zip" (some false) (some 0)
                 (.zip [.mk "x.txt" (some false) (some 0) (.raw 0)])]) "out" 1 =
      (some ⟨0, 1, true⟩, [Ev.openA "out"]) := by
  refine ⟨fun put d p => extract_nonpos_eq put d p 0 (by omega), ?_, by decide⟩
  intro put d p rest fu nzp tr
  have h0 : extract put d p 0 = (some ⟨0, 0, true⟩, []) :=
    extract_nonpos_eq put d p 0 (by omega)
  simp [procNested, h0]

end ScfUnzip
